import Mathlib

/-!
Shallow embedding of the Rebalancing & Valuation Engine of the
execution-service repository:

* `src/app/service/execute_full_trade.py` — trade planner (`calculate_trades`)
  and executor (`execute_trades`);
* `src/app/service/update_portfolio_balance.py` — valuation replay
  (`update_portfolio_balance`, `update_portfolio_balance_for_day`), metrics
  (`calculate_portfolio_metrics`) and turnover
  (`calculate_portfolio_turnover`);
* `src/app/service/add_allocations.py` — allocation-batch writer;
* `src/app/service/backtest_allocations.py` — seed step
  (`ensure_initial_position`).

Modelling conventions:

* Python `Decimal` and `float` values are modelled as exact rationals (`ℚ`).
  `Decimal` division carries 28 significant digits before the explicit
  `quantize` calls; that intermediate precision is modelled as exact rational
  arithmetic, and only the `quantize` calls of the source are modelled as
  rounding steps.
* Values that can be NaN or ±Infinity (the quantstats statistics) live in the
  inductive type `PyVal`.
* Calendar dates are integers (`Int`); day `d` has weekday `d % 7`, with `0`
  denoting Monday (2024-01-01, the hard-coded seed date, was a Monday and is
  taken as day 0).  Row timestamps are rationals: midnight of day `d` is
  `(d : ℚ)`, and intra-day times are proper fractions above it, matching the
  `datetime.combine(day, datetime.min.time())` / market-close timestamps of
  the source.
* The quantstats library functions (`qs.stats.sharpe`, `qs.stats.max_drawdown`,
  `qs.stats.greeks`) and `pandas.Series.std` are external collaborators, not
  code of this repository; they are passed in as an explicit record of
  functions (`QSLib`) that may raise (`Except Unit`) or return non-finite
  values.
* SQL queries are modelled over in-memory lists holding the rows of the
  queried portfolio, filtered exactly as the source filters.
-/

/-! ## Decimal rounding

`Decimal.quantize(Decimal('0.0001'), rounding='ROUND_HALF_UP')` rounds to
`n` fractional digits with ties away from zero; plain `quantize` uses the
context default ROUND_HALF_EVEN (ties to even).  Python 3 `round(x, 3)` also
rounds half to even. -/

/-- Round a rational to `n` fractional digits, ties away from zero
(Python `ROUND_HALF_UP`). -/
def quantHalfUp (n : ℕ) (x : ℚ) : ℚ :=
  let s : ℚ := (10 : ℚ) ^ n
  if 0 ≤ x then (⌊x * s + 1/2⌋ : ℤ) / s
  else -((⌊(-x) * s + 1/2⌋ : ℤ) / s)

/-- Round a rational to `n` fractional digits, ties to even
(Python `ROUND_HALF_EVEN`, the `Decimal` context default and `round()`). -/
def quantHalfEven (n : ℕ) (x : ℚ) : ℚ :=
  (if x * (10:ℚ) ^ n - ⌊x * (10:ℚ) ^ n⌋ < 1/2 then ((⌊x * (10:ℚ) ^ n⌋ : ℤ) : ℚ)
   else if 1/2 < x * (10:ℚ) ^ n - ⌊x * (10:ℚ) ^ n⌋ then
     ((⌊x * (10:ℚ) ^ n⌋ + 1 : ℤ) : ℚ)
   else if ⌊x * (10:ℚ) ^ n⌋ % 2 = 0 then ((⌊x * (10:ℚ) ^ n⌋ : ℤ) : ℚ)
   else ((⌊x * (10:ℚ) ^ n⌋ + 1 : ℤ) : ℚ)) / (10:ℚ) ^ n

/-- A Python numeric value that may be NaN or ±Infinity (the results of the
quantstats calls); finite values are exact rationals. -/
inductive PyVal where
  | num (q : ℚ)
  | nan
  | inf
  | ninf
  deriving DecidableEq, Repr

namespace PyVal

/-- Python `round(float(x), 3)`: finite values round half-to-even at three
decimals; `round` of NaN/inf returns NaN/inf unchanged. -/
def round3 : PyVal → PyVal
  | num q => num (quantHalfEven 3 q)
  | nan => nan
  | inf => inf
  | ninf => ninf

end PyVal

/-! ## Trade planner: `calculate_trades` (`execute_full_trade.py`)

Inputs as the Python function receives them: the allocation rows of the
batch, the latest position per symbol, the price table for the batch date
(via `get_symbol_price`, total: a missing price is reported as `0`), the
total portfolio value pulled from portfolio stats, and the `MONEY_MARKET`
symbol row if one exists. -/

/-- One allocation row of the batch (symbol id, `allocation_pct`). -/
structure Alloc where
  symbol : ℕ
  pct : ℚ
  deriving DecidableEq, Repr

/-- Latest position snapshot for one symbol (symbol id, quantity). -/
structure CurPos where
  symbol : ℕ
  qty : ℚ
  deriving DecidableEq, Repr

/-- Trade side. -/
inductive Side where
  | buy
  | sell
  deriving DecidableEq, Repr

/-- A planned trade intent (`trade_type`, `quantity`, `price`). -/
structure TradeIntent where
  symbol : ℕ
  side : Side
  qty : ℚ
  price : ℚ
  deriving DecidableEq, Repr

/-- The inputs of `calculate_trades`: allocation batch, latest positions,
day prices, total portfolio value (from `calculate_positions_value`), and the
`MONEY_MARKET` symbol id when that symbol exists in the database. -/
structure PlanInput where
  allocations : List Alloc
  positions : List CurPos
  price : ℕ → ℚ
  totalValue : ℚ
  mm : Option ℕ

/-- One entry of the `target_quantities` map: symbol, day price, target
quantity (4 decimals, half-up) and current quantity. -/
structure TargetEntry where
  symbol : ℕ
  price : ℚ
  target : ℚ
  current : ℚ
  deriving DecidableEq, Repr

/-- `current_quantity`: the latest position quantity for a symbol, `0` when
no position row exists (`Decimal('0') if symbol_id not in positions_map`). -/
def currentQty (inp : PlanInput) (s : ℕ) : ℚ :=
  ((inp.positions.find? (fun p => p.symbol == s)).map (fun p => p.qty)).getD 0

/-- One iteration of the STEP-1 loop of `calculate_trades`: the
`target_quantities` entry built for one allocation row, `none` when the
symbol's day price is zero (skipped).  `target_value = total_value * pct`;
`target_quantity = (target_value / price).quantize('0.0001', ROUND_HALF_UP)`. -/
def targetEntry (inp : PlanInput) (a : Alloc) : Option TargetEntry :=
  if inp.price a.symbol = 0 then none
  else some
    { symbol := a.symbol
      price := inp.price a.symbol
      target := quantHalfUp 4 (inp.totalValue * a.pct / inp.price a.symbol)
      current := currentQty inp a.symbol }

/-- STEP 1 of `calculate_trades`: the `target_quantities` map. -/
def targetQuantities (inp : PlanInput) : List TargetEntry :=
  inp.allocations.filterMap (targetEntry inp)

/-- Lookup of a symbol in the `target_quantities` map. -/
def targetFor (inp : PlanInput) (s : ℕ) : Option TargetEntry :=
  (targetQuantities inp).find? (fun t => t.symbol == s)

/-- STEP 2 of `calculate_trades`: sell trades.  Positions with non-positive
quantity are skipped; a held symbol absent from the batch is fully sold at
the day price; a held symbol present in `target_quantities` whose quantity
exceeds the target is trimmed by the excess.  (A held symbol that is
allocated but missing from `target_quantities` — zero price — generates no
sell.) -/
def sellTrades (inp : PlanInput) : List TradeIntent :=
  inp.positions.filterMap (fun (pos : CurPos) =>
    if pos.qty ≤ 0 then none
    else if inp.allocations.all (fun a => a.symbol != pos.symbol) then
      some { symbol := pos.symbol, side := Side.sell, qty := pos.qty,
             price := inp.price pos.symbol }
    else
      match targetFor inp pos.symbol with
      | some t =>
          if t.target < pos.qty then
            some { symbol := pos.symbol, side := Side.sell,
                   qty := pos.qty - t.target, price := t.price }
          else none
      | none => none)

/-- STEP 3 of `calculate_trades`: buy trades.  Every target entry whose
current quantity is below target is topped up by the deficit; deficits below
`0.0001` are dropped. -/
def buyIntent (t : TargetEntry) : Option TradeIntent :=
  if t.target ≤ t.current then none
  else if t.target - t.current < 1/10000 then none
  else some { symbol := t.symbol, side := Side.buy, qty := t.target - t.current,
              price := t.price }

/-- STEP 3 of `calculate_trades` as a list: one optional buy per target
entry. -/
def buyTrades (inp : PlanInput) : List TradeIntent :=
  (targetQuantities inp).filterMap buyIntent

/-- `total_sell_value`: value of the sell list before balancing. -/
def plannedSellValue (inp : PlanInput) : ℚ :=
  ((sellTrades inp).map (fun t => t.price * t.qty)).sum

/-- `total_buy_value`: value of the buy list before balancing. -/
def plannedBuyValue (inp : PlanInput) : ℚ :=
  ((buyTrades inp).map (fun t => t.price * t.qty)).sum

/-- `calculate_trades`: sells, then buys, then — only when the sell value
strictly exceeds the buy value and a `MONEY_MARKET` symbol row exists — one
balancing `MONEY_MARKET` buy of the difference at price 1.  No trade of any
kind is appended when the buy value exceeds the sell value. -/
def calculate_trades (inp : PlanInput) : List TradeIntent :=
  if 0 < plannedSellValue inp - plannedBuyValue inp then
    match inp.mm with
    | some m =>
        sellTrades inp ++ buyTrades inp ++
          [{ symbol := m, side := Side.buy,
             qty := plannedSellValue inp - plannedBuyValue inp, price := 1 }]
    | none => sellTrades inp ++ buyTrades inp
  else sellTrades inp ++ buyTrades inp

/-- Total value of the buy-side trades of a trade list. -/
def buySideValue (ts : List TradeIntent) : ℚ :=
  ((ts.filter (fun t => t.side == Side.buy)).map (fun t => t.price * t.qty)).sum

/-- Total value of the sell-side trades of a trade list. -/
def sellSideValue (ts : List TradeIntent) : ℚ :=
  ((ts.filter (fun t => t.side == Side.sell)).map (fun t => t.price * t.qty)).sum

/-! ## Generic list lemmas for keyed `filterMap` tables -/

/-- A `filterMap` whose output preserves a key maps its keys to a sublist of
the input keys. -/
theorem map_filterMap_key_sublist {α β : Type} (f : α → Option β)
    (ka : α → ℕ) (kb : β → ℕ) (hk : ∀ x y, f x = some y → kb y = ka x) :
    ∀ l : List α, ((l.filterMap f).map kb).Sublist (l.map ka) := by
  intro l
  induction l with
  | nil => simp
  | cons x xs ih =>
    cases hfx : f x with
    | none => simpa [List.filterMap_cons, hfx] using ih.cons (ka x)
    | some y =>
      simpa [List.filterMap_cons, hfx, hk x y hfx] using ih.cons₂ (ka x)

/-- No element of a keyed `filterMap` has a key outside the input keys. -/
theorem find?_filterMap_key_none {α β : Type} (f : α → Option β)
    (ka : α → ℕ) (kb : β → ℕ) (hk : ∀ x y, f x = some y → kb y = ka x)
    (l : List α) (s : ℕ) (hs : s ∉ l.map ka) :
    (l.filterMap f).find? (fun b => kb b == s) = none := by
  apply List.find?_eq_none.mpr
  intro b hb
  obtain ⟨x, hx, hfx⟩ := List.mem_filterMap.mp hb
  have : kb b = ka x := hk x b hfx
  simp only [beq_iff_eq, this]
  intro h
  exact hs (h ▸ List.mem_map_of_mem ka hx)

/-- Finding a key in a keyed `filterMap` table with `Nodup` input keys
returns exactly the image of the input row with that key. -/
theorem find?_filterMap_key {α β : Type} (f : α → Option β)
    (ka : α → ℕ) (kb : β → ℕ) (hk : ∀ x y, f x = some y → kb y = ka x)
    (l : List α) (x : α) (hx : x ∈ l) (hnd : (l.map ka).Nodup) :
    (l.filterMap f).find? (fun b => kb b == ka x) = f x := by
  induction l with
  | nil => cases hx
  | cons z zs ih =>
    simp only [List.map_cons, List.nodup_cons] at hnd
    rcases List.mem_cons.mp hx with hxz | hxs
    · subst hxz
      cases hfx : f x with
      | none =>
        simp only [List.filterMap_cons, hfx]
        exact find?_filterMap_key_none f ka kb hk zs (ka x) hnd.1
      | some y =>
        simp [List.filterMap_cons, hfx, List.find?_cons, hk x y hfx]
    · have hne : ka z ≠ ka x :=
        fun h => hnd.1 (h ▸ List.mem_map_of_mem ka hxs)
      cases hfz : f z with
      | none => simpa [List.filterMap_cons, hfz] using ih hxs hnd.2
      | some y =>
        have : (kb y == ka x) = false := by
          simp [hk z y hfz, hne]
        simpa [List.filterMap_cons, hfz, List.find?_cons, this]
          using ih hxs hnd.2

/-! ## Side/value bookkeeping lemmas for the planner -/

theorem side_of_mem_sellTrades {inp : PlanInput} {t : TradeIntent}
    (h : t ∈ sellTrades inp) : t.side = Side.sell := by
  obtain ⟨pos, _, hf⟩ := List.mem_filterMap.mp h
  split at hf
  · cases hf
  · split at hf
    · cases hf; rfl
    · split at hf
      · split at hf
        · cases hf; rfl
        · cases hf
      · cases hf

theorem side_of_mem_buyTrades {inp : PlanInput} {t : TradeIntent}
    (h : t ∈ buyTrades inp) : t.side = Side.buy := by
  obtain ⟨e, _, hf⟩ := List.mem_filterMap.mp h
  dsimp only [buyIntent] at hf
  split at hf
  · cases hf
  · split at hf
    · cases hf
    · cases hf; rfl

theorem buySideValue_append (a b : List TradeIntent) :
    buySideValue (a ++ b) = buySideValue a + buySideValue b := by
  simp [buySideValue, List.filter_append]

theorem sellSideValue_append (a b : List TradeIntent) :
    sellSideValue (a ++ b) = sellSideValue a + sellSideValue b := by
  simp [sellSideValue, List.filter_append]

theorem buySideValue_sellTrades (inp : PlanInput) :
    buySideValue (sellTrades inp) = 0 := by
  have h : (sellTrades inp).filter (fun t => t.side == Side.buy) = [] := by
    apply List.filter_eq_nil_iff.mpr
    intro t ht
    simp [side_of_mem_sellTrades ht]
  simp [buySideValue, h]

theorem sellSideValue_buyTrades (inp : PlanInput) :
    sellSideValue (buyTrades inp) = 0 := by
  have h : (buyTrades inp).filter (fun t => t.side == Side.sell) = [] := by
    apply List.filter_eq_nil_iff.mpr
    intro t ht
    simp [side_of_mem_buyTrades ht]
  simp [sellSideValue, h]

theorem sellSideValue_sellTrades (inp : PlanInput) :
    sellSideValue (sellTrades inp) = plannedSellValue inp := by
  have h : (sellTrades inp).filter (fun t => t.side == Side.sell)
      = sellTrades inp := by
    apply List.filter_eq_self.mpr
    intro t ht
    simp [side_of_mem_sellTrades ht]
  simp [sellSideValue, plannedSellValue, h]

theorem buySideValue_buyTrades (inp : PlanInput) :
    buySideValue (buyTrades inp) = plannedBuyValue inp := by
  have h : (buyTrades inp).filter (fun t => t.side == Side.buy)
      = buyTrades inp := by
    apply List.filter_eq_self.mpr
    intro t ht
    simp [side_of_mem_buyTrades ht]
  simp [buySideValue, plannedBuyValue, h]

/-! ## Shape lemmas for `calculate_trades` -/

/-- When sell value strictly exceeds buy value and a `MONEY_MARKET` row
exists, the plan is sells, buys, and one balancing buy of the difference at
price 1. -/
theorem calculate_trades_eq_pos (inp : PlanInput) (m : ℕ)
    (hmm : inp.mm = some m)
    (hd : 0 < plannedSellValue inp - plannedBuyValue inp) :
    calculate_trades inp = sellTrades inp ++ buyTrades inp ++
      [{ symbol := m, side := Side.buy,
         qty := plannedSellValue inp - plannedBuyValue inp, price := 1 }] := by
  simp [calculate_trades, hmm, hd]

/-- When sell value does not exceed buy value, no balancing trade is
appended. -/
theorem calculate_trades_eq_nonpos (inp : PlanInput)
    (hd : ¬ 0 < plannedSellValue inp - plannedBuyValue inp) :
    calculate_trades inp = sellTrades inp ++ buyTrades inp := by
  simp only [calculate_trades, if_neg hd]

theorem targetEntry_symbol {inp : PlanInput} {x : Alloc} {y : TargetEntry}
    (h : targetEntry inp x = some y) : y.symbol = x.symbol := by
  unfold targetEntry at h
  split at h
  · cases h
  · cases h; rfl

theorem buyIntent_symbol {x : TargetEntry} {y : TradeIntent}
    (h : buyIntent x = some y) : y.symbol = x.symbol := by
  unfold buyIntent at h
  split at h
  · cases h
  · split at h
    · cases h
    · cases h; rfl

/-- Membership in a planned trade list: a trade is a sell, a buy, or the
balancing `MONEY_MARKET` buy. -/
theorem mem_calculate_trades {inp : PlanInput} {t : TradeIntent}
    (h : t ∈ calculate_trades inp) :
    t ∈ sellTrades inp ∨ t ∈ buyTrades inp ∨
      ∃ m, inp.mm = some m ∧
        t = { symbol := m, side := Side.buy,
              qty := plannedSellValue inp - plannedBuyValue inp, price := 1 } := by
  unfold calculate_trades at h
  split at h
  · cases hmm : inp.mm with
    | none =>
      rw [hmm] at h
      rcases List.mem_append.mp h with hs | hb
      · exact Or.inl hs
      · exact Or.inr (Or.inl hb)
    | some m =>
      rw [hmm] at h
      rcases List.mem_append.mp h with hsb | hm
      · rcases List.mem_append.mp hsb with hs | hb
        · exact Or.inl hs
        · exact Or.inr (Or.inl hb)
      · refine Or.inr (Or.inr ⟨m, rfl, ?_⟩)
        simpa using hm
  · rcases List.mem_append.mp h with hs | hb
    · exact Or.inl hs
    · exact Or.inr (Or.inl hb)

/-! ## Claim C1 — conservation of planned value -/

/-- C1 (amended): whenever a `MONEY_MARKET` symbol row exists and the planned
sell value is at least the planned buy value, the balancing `MONEY_MARKET`
buy (price 1, quantity = difference) makes total planned buy value equal
total planned sell value exactly, so the planned batch conserves total
portfolio value.  (The source only appends the balancing trade when the sell
value strictly exceeds the buy value; when the buy value exceeds the sell
value nothing balances the plan — see the counterexample.) -/
theorem calculate_trades_conserves_value (inp : PlanInput) (m : ℕ)
    (hmm : inp.mm = some m)
    (hle : plannedBuyValue inp ≤ plannedSellValue inp) :
    buySideValue (calculate_trades inp) = sellSideValue (calculate_trades inp) := by
  by_cases hd : 0 < plannedSellValue inp - plannedBuyValue inp
  · rw [calculate_trades_eq_pos inp m hmm hd]
    rw [buySideValue_append, buySideValue_append,
        sellSideValue_append, sellSideValue_append]
    rw [buySideValue_sellTrades, buySideValue_buyTrades,
        sellSideValue_sellTrades, sellSideValue_buyTrades]
    simp [buySideValue, sellSideValue]
  · rw [calculate_trades_eq_nonpos inp hd]
    rw [buySideValue_append, sellSideValue_append,
        buySideValue_sellTrades, buySideValue_buyTrades,
        sellSideValue_sellTrades, sellSideValue_buyTrades]
    have : plannedSellValue inp = plannedBuyValue inp := by
      have := not_lt.mp hd
      linarith
    linarith

/-- Concrete batch on which the claimed conservation law fails: one
allocation (100 % into symbol 1 at price 10), no current positions, total
portfolio value 1000 (positive, taken from portfolio stats), `MONEY_MARKET`
present.  The plan is a single 1000-value buy, no sell and no balancing
trade, so planned buy value (1000) differs from planned sell value (0): the
plan increases total portfolio value by 1000. -/
def inpC1 : PlanInput :=
  { allocations := [⟨1, 1⟩], positions := [], price := fun _ => 10,
    totalValue := 1000, mm := some 99 }

/-- C1 counterexample: a non-empty batch with positive portfolio value and an
existing `MONEY_MARKET` symbol whose planned trades do not conserve value —
total buy value is 1000 while total sell value is 0, and no balancing
risk-free trade is planned. -/
theorem calculate_trades_not_conserving :
    inpC1.allocations ≠ [] ∧ 0 < inpC1.totalValue ∧ inpC1.mm = some 99 ∧
    buySideValue (calculate_trades inpC1) = 1000 ∧
    sellSideValue (calculate_trades inpC1) = 0 ∧
    buySideValue (calculate_trades inpC1) ≠ sellSideValue (calculate_trades inpC1) := by
  have hb : buySideValue (calculate_trades inpC1) = 1000 := by
    norm_num [inpC1, calculate_trades, plannedSellValue, plannedBuyValue,
      sellTrades, buyTrades, targetQuantities, targetEntry, targetFor,
      buyIntent, currentQty, quantHalfUp, buySideValue, sellSideValue,
      List.filterMap_cons, List.filterMap_nil]
  have hs : sellSideValue (calculate_trades inpC1) = 0 := by
    norm_num [inpC1, calculate_trades, plannedSellValue, plannedBuyValue,
      sellTrades, buyTrades, targetQuantities, targetEntry, targetFor,
      buyIntent, currentQty, quantHalfUp, buySideValue, sellSideValue,
      List.filterMap_cons, List.filterMap_nil, List.filter_cons, List.filter_nil]
    all_goals simp
  refine ⟨by decide, by norm_num [inpC1], rfl, hb, hs, ?_⟩
  rw [hb, hs]
  norm_num

/-- Surplus scenario for the amended C1: the seeded portfolio (1,000,000
`MONEY_MARKET` at price 1) reallocated 100 % into symbol 1 at price 3; the
full `MONEY_MARKET` liquidation exceeds the buy cost by 0.0001, which the
balancing `MONEY_MARKET` buy absorbs. -/
def inpC1w : PlanInput :=
  { allocations := [⟨1, 1⟩], positions := [⟨99, 1000000⟩],
    price := fun s => if s = 99 then 1 else 3,
    totalValue := 1000000, mm := some 99 }

/-- Witness for the amended C1 at `inpC1w`. -/
theorem calculate_trades_conserves_value_witness :
    plannedBuyValue inpC1w ≤ plannedSellValue inpC1w ∧
    buySideValue (calculate_trades inpC1w) = sellSideValue (calculate_trades inpC1w) := by
  have h : plannedBuyValue inpC1w ≤ plannedSellValue inpC1w := by
    norm_num [inpC1w, plannedSellValue, plannedBuyValue, sellTrades, buyTrades,
      targetQuantities, targetEntry, targetFor, buyIntent, currentQty, quantHalfUp,
      List.filterMap_cons, List.filterMap_nil]
  exact ⟨h, calculate_trades_conserves_value inpC1w 99 rfl h⟩

/-! ## Claim C7 — target quantities, zero-price skip, buy deficits -/

/-- C7: for every allocated symbol of a batch with distinct symbols, (i) the
`target_quantities` entry holds exactly
`round_half_up_4dp(total_value * pct / price)`; (ii) a symbol priced at 0 is
skipped and no planned trade mentions it; (iii) a buy intent for the symbol
exists iff the current quantity is below target and the deficit is at least
0.0001 shares, and then it buys exactly the deficit. -/
theorem calculate_trades_target_and_buy_rules (inp : PlanInput) (a : Alloc)
    (ha : a ∈ inp.allocations)
    (hnd : (inp.allocations.map Alloc.symbol).Nodup)
    (hmm1 : ∀ m, inp.mm = some m → inp.price m = 1) :
    (inp.price a.symbol ≠ 0 →
      targetFor inp a.symbol = some
        { symbol := a.symbol
          price := inp.price a.symbol
          target := quantHalfUp 4 (inp.totalValue * a.pct / inp.price a.symbol)
          current := currentQty inp a.symbol }) ∧
    (inp.price a.symbol = 0 →
      ∀ t ∈ calculate_trades inp, t.symbol ≠ a.symbol) ∧
    (inp.price a.symbol ≠ 0 →
      (buyTrades inp).find? (fun t => t.symbol == a.symbol) =
        buyIntent
          { symbol := a.symbol
            price := inp.price a.symbol
            target := quantHalfUp 4 (inp.totalValue * a.pct / inp.price a.symbol)
            current := currentQty inp a.symbol } ∧
      ∀ t ∈ buyTrades inp, t.symbol = a.symbol →
        t = { symbol := a.symbol, side := Side.buy,
              qty := quantHalfUp 4 (inp.totalValue * a.pct / inp.price a.symbol)
                       - currentQty inp a.symbol
              price := inp.price a.symbol }) := by
  have hk1 : ∀ x y, targetEntry inp x = some y → y.symbol = x.symbol :=
    fun x y h => targetEntry_symbol h
  have hfind := find?_filterMap_key (targetEntry inp) Alloc.symbol
    TargetEntry.symbol hk1 inp.allocations a ha hnd
  refine ⟨?_, ?_, ?_⟩
  · intro hp
    have : targetFor inp a.symbol = targetEntry inp a := hfind
    rw [this]
    simp [targetEntry, hp]
  · intro hp t ht
    rcases mem_calculate_trades ht with hs | hb | ⟨m, hm, hteq⟩
    · obtain ⟨pos, _, hf⟩ := List.mem_filterMap.mp hs
      intro hsym
      split at hf
      · cases hf
      · split at hf
        · rename_i hall
          cases hf
          simp only at hsym
          have hcon := List.all_eq_true.mp hall a ha
          simp at hcon
          exact hcon hsym.symm
        · have hpos : pos.symbol = a.symbol := by
            split at hf
            · rename_i t' _
              split at hf
              · cases hf; exact hsym
              · cases hf
            · cases hf
          rw [hpos] at hf
          have hnone : targetFor inp a.symbol = none := by
            have h0 : targetFor inp a.symbol = targetEntry inp a := hfind
            rw [h0]
            simp [targetEntry, hp]
          rw [hnone] at hf
          cases hf
    · obtain ⟨e, he, hf⟩ := List.mem_filterMap.mp hb
      obtain ⟨a', ha', hfa'⟩ := List.mem_filterMap.mp he
      intro hsym
      have h1 : t.symbol = e.symbol := buyIntent_symbol hf
      have h2 : e.symbol = a'.symbol := targetEntry_symbol hfa'
      have h3 : a'.symbol = a.symbol := h2.symm.trans (h1.symm.trans hsym)
      unfold targetEntry at hfa'
      rw [h3] at hfa'
      rw [if_pos hp] at hfa'
      cases hfa'
    · intro hsym
      have hpm : inp.price m = 1 := hmm1 m hm
      rw [hteq] at hsym
      simp only at hsym
      rw [hsym] at hpm
      rw [hp] at hpm
      exact absurd hpm (by norm_num)
  · intro hp
    set e : TargetEntry :=
      { symbol := a.symbol
        price := inp.price a.symbol
        target := quantHalfUp 4 (inp.totalValue * a.pct / inp.price a.symbol)
        current := currentQty inp a.symbol } with he_def
    have hte : targetEntry inp a = some e := by simp [targetEntry, hp, he_def]
    have hmem : e ∈ targetQuantities inp :=
      List.mem_filterMap.mpr ⟨a, ha, hte⟩
    have hndt : ((targetQuantities inp).map TargetEntry.symbol).Nodup :=
      (map_filterMap_key_sublist (targetEntry inp) Alloc.symbol
        TargetEntry.symbol hk1 inp.allocations).nodup hnd
    have hk2 : ∀ x y, buyIntent x = some y → y.symbol = x.symbol :=
      fun x y h => buyIntent_symbol h
    have hfind2 := find?_filterMap_key buyIntent TargetEntry.symbol
      TradeIntent.symbol hk2 (targetQuantities inp) e hmem hndt
    constructor
    · exact hfind2
    · intro t ht hsym
      obtain ⟨e', he', hf⟩ := List.mem_filterMap.mp ht
      obtain ⟨a', ha', hfa'⟩ := List.mem_filterMap.mp he'
      have h1 : t.symbol = e'.symbol := buyIntent_symbol hf
      have h2 : e'.symbol = a'.symbol := targetEntry_symbol hfa'
      have h3 : a'.symbol = a.symbol := h2.symm.trans (h1.symm.trans hsym)
      have haa : a' = a := by
        by_contra hne
        have := List.inj_on_of_nodup_map hnd ha' ha h3
        exact hne this
      subst haa
      rw [hte] at hfa'
      injection hfa' with hee
      rw [← hee] at hf
      unfold buyIntent at hf
      split at hf
      · cases hf
      · split at hf
        · cases hf
        · cases hf
          simp [he_def]

/-- Concrete batch for the C7 witness: 60 % symbol 1 (price 10), 40 %
symbol 2 (price 20), portfolio value 1000, currently 2 shares of symbol 1. -/
def inpC7 : PlanInput :=
  { allocations := [⟨1, 3/5⟩, ⟨2, 2/5⟩], positions := [⟨1, 2⟩],
    price := fun s => if s = 1 then 10 else if s = 2 then 20 else 0,
    totalValue := 1000, mm := none }

/-- The allocation row of `inpC7` the C7 witness instantiates. -/
def aC7 : Alloc := ⟨1, 3/5⟩

/-- Witness for C7 at `inpC7`, allocation `aC7`. -/
theorem calculate_trades_target_and_buy_rules_witness :
    aC7 ∈ inpC7.allocations ∧
    (inpC7.allocations.map Alloc.symbol).Nodup ∧
    ((inpC7.price aC7.symbol ≠ 0 →
      targetFor inpC7 aC7.symbol = some
        { symbol := aC7.symbol
          price := inpC7.price aC7.symbol
          target := quantHalfUp 4 (inpC7.totalValue * aC7.pct / inpC7.price aC7.symbol)
          current := currentQty inpC7 aC7.symbol }) ∧
    (inpC7.price aC7.symbol = 0 →
      ∀ t ∈ calculate_trades inpC7, t.symbol ≠ aC7.symbol) ∧
    (inpC7.price aC7.symbol ≠ 0 →
      (buyTrades inpC7).find? (fun t => t.symbol == aC7.symbol) =
        buyIntent
          { symbol := aC7.symbol
            price := inpC7.price aC7.symbol
            target := quantHalfUp 4 (inpC7.totalValue * aC7.pct / inpC7.price aC7.symbol)
            current := currentQty inpC7 aC7.symbol } ∧
      ∀ t ∈ buyTrades inpC7, t.symbol = aC7.symbol →
        t = { symbol := aC7.symbol, side := Side.buy,
              qty := quantHalfUp 4 (inpC7.totalValue * aC7.pct / inpC7.price aC7.symbol)
                       - currentQty inpC7 aC7.symbol
              price := inpC7.price aC7.symbol })) :=
  ⟨List.mem_cons_self aC7 _, by decide,
   calculate_trades_target_and_buy_rules inpC7 aC7 (List.mem_cons_self aC7 _)
     (by decide) (fun m h => nomatch h)⟩

/-! ## Trade executor: position snapshots (`execute_trades`, `execute_full_trade.py`)

`execute_trades` records one Trade per intent, then nets per-symbol quantity
deltas over the batch (buys positive, sells negative, Python-dict insertion
order) and writes one new snapshot per netted symbol: the new quantity when
it is positive, a zero-quantity snapshot when it is non-positive but a prior
position row exists, and nothing otherwise. -/

/-- A trade being executed (symbol, side, quantity). -/
structure ExecTrade where
  symbol : ℕ
  side : Side
  qty : ℚ
  deriving DecidableEq, Repr

/-- `quantity_change`: positive for a buy, negated for a sell. -/
def signedQty (t : ExecTrade) : ℚ :=
  if t.side = Side.buy then t.qty else -t.qty

/-- Add `d` to the entry of key `s` of an association list, appending a new
entry when the key is absent (Python dict update, insertion order kept). -/
def upsertAdd : List (ℕ × ℚ) → ℕ → ℚ → List (ℕ × ℚ)
  | [], s, d => [(s, d)]
  | (k, v) :: rest, s, d =>
      if k = s then (k, v + d) :: rest else (k, v) :: upsertAdd rest s d

/-- The `position_changes` dict: net per-symbol quantity delta of the batch. -/
def position_changes (ts : List ExecTrade) : List (ℕ × ℚ) :=
  ts.foldl (fun acc t => upsertAdd acc t.symbol (signedQty t)) []

/-- Association-list lookup (first match) of a symbol's value. -/
def lookupQty (l : List (ℕ × ℚ)) (s : ℕ) : Option ℚ :=
  (l.find? (fun p => p.1 == s)).map Prod.snd

/-- Net signed delta of all trades of one symbol. -/
def netDelta (s : ℕ) (ts : List ExecTrade) : ℚ :=
  ((ts.filter (fun t => t.symbol == s)).map signedQty).sum

/-- The snapshot row written for one netted (symbol, delta) pair:
`current + delta` when positive; an explicit zero row when non-positive but a
prior position row exists; none otherwise. -/
def newPositionRow (cur : List (ℕ × ℚ)) (sd : ℕ × ℚ) : Option (ℕ × ℚ) :=
  if 0 < (lookupQty cur sd.1).getD 0 + sd.2 then
    some (sd.1, (lookupQty cur sd.1).getD 0 + sd.2)
  else if cur.any (fun p => p.1 == sd.1) then some (sd.1, 0)
  else none

/-- The new position snapshots written by `execute_trades` for a batch,
given the latest prior position per symbol. -/
def execute_trades_positions (ts : List ExecTrade) (cur : List (ℕ × ℚ)) :
    List (ℕ × ℚ) :=
  (position_changes ts).filterMap (newPositionRow cur)

/-! ### Association-list lemmas for the netting fold -/

theorem lookupQty_upsertAdd_same (acc : List (ℕ × ℚ)) (s : ℕ) (d : ℚ) :
    lookupQty (upsertAdd acc s d) s = some ((lookupQty acc s).getD 0 + d) := by
  induction acc with
  | nil => simp [upsertAdd, lookupQty]
  | cons p rest ih =>
    obtain ⟨k, v⟩ := p
    by_cases hk : k = s
    · subst hk
      simp [upsertAdd, lookupQty]
    · simp only [upsertAdd, if_neg hk]
      have hk' : (k == s) = false := by simp [hk]
      simp [lookupQty, List.find?_cons, hk'] at ih ⊢
      exact ih

theorem lookupQty_upsertAdd_other (acc : List (ℕ × ℚ)) (s s' : ℕ) (d : ℚ)
    (hne : s' ≠ s) :
    lookupQty (upsertAdd acc s d) s' = lookupQty acc s' := by
  induction acc with
  | nil => simp [upsertAdd, lookupQty, Ne.symm hne]
  | cons p rest ih =>
    obtain ⟨k, v⟩ := p
    by_cases hk : k = s
    · subst hk
      have hk' : (k == s') = false := by simp [Ne.symm hne]
      simp [upsertAdd, lookupQty, List.find?_cons, hk']
    · simp only [upsertAdd, if_neg hk]
      by_cases hk2 : k = s'
      · subst hk2
        simp [lookupQty, List.find?_cons]
      · have hk2' : (k == s') = false := by simp [hk2]
        simp [lookupQty, List.find?_cons, hk2'] at ih ⊢
        exact ih

theorem isSome_lookupQty_upsertAdd (acc : List (ℕ × ℚ)) (s s' : ℕ) (d : ℚ)
    (h : (lookupQty acc s').isSome) :
    (lookupQty (upsertAdd acc s d) s').isSome := by
  by_cases hne : s' = s
  · subst hne
    rw [lookupQty_upsertAdd_same]
    rfl
  · rw [lookupQty_upsertAdd_other acc s s' d hne]
    exact h

theorem netDelta_cons (t : ExecTrade) (ts : List ExecTrade) (s : ℕ) :
    netDelta s (t :: ts) =
      (if t.symbol = s then signedQty t else 0) + netDelta s ts := by
  by_cases h : t.symbol = s
  · simp [netDelta, List.filter_cons, h]
  · simp [netDelta, List.filter_cons, h]

theorem lookupQty_netting_foldl (ts : List ExecTrade) :
    ∀ (acc : List (ℕ × ℚ)) (s : ℕ),
      ((∃ t ∈ ts, t.symbol = s) ∨ (lookupQty acc s).isSome) →
      lookupQty
          (ts.foldl (fun acc t => upsertAdd acc t.symbol (signedQty t)) acc) s
        = some ((lookupQty acc s).getD 0 + netDelta s ts) := by
  induction ts with
  | nil =>
    intro acc s h
    rcases h with h | h
    · simp at h
    · obtain ⟨v, hv⟩ := Option.isSome_iff_exists.mp h
      simp [netDelta, hv]
  | cons t ts ih =>
    intro acc s h
    rw [List.foldl_cons, netDelta_cons]
    by_cases hts : t.symbol = s
    · have hsome : (lookupQty (upsertAdd acc t.symbol (signedQty t)) s).isSome := by
        rw [hts, lookupQty_upsertAdd_same]
        rfl
      rw [ih _ s (Or.inr hsome)]
      rw [hts, lookupQty_upsertAdd_same]
      simp only [hts, if_pos]
      rw [Option.getD_some, add_assoc]
    · have hlk : lookupQty (upsertAdd acc t.symbol (signedQty t)) s
          = lookupQty acc s :=
        lookupQty_upsertAdd_other acc t.symbol s (signedQty t)
          (fun hss => hts hss.symm)
      have h' : (∃ u ∈ ts, u.symbol = s) ∨
          (lookupQty (upsertAdd acc t.symbol (signedQty t)) s).isSome := by
        rcases h with ⟨u, hu, hus⟩ | h
        · rcases List.mem_cons.mp hu with hut | hu'
          · exact absurd (hut ▸ hus) hts
          · exact Or.inl ⟨u, hu', hus⟩
        · rw [hlk]
          exact Or.inr h
      rw [ih _ s h', hlk]
      simp [hts]

theorem lookupQty_netting_foldl_none (ts : List ExecTrade) :
    ∀ (acc : List (ℕ × ℚ)) (s : ℕ),
      (¬ ∃ t ∈ ts, t.symbol = s) → lookupQty acc s = none →
      lookupQty
          (ts.foldl (fun acc t => upsertAdd acc t.symbol (signedQty t)) acc) s
        = none := by
  induction ts with
  | nil => intro acc s _ hn; simpa using hn
  | cons t ts ih =>
    intro acc s h hn
    rw [List.foldl_cons]
    have hts : t.symbol ≠ s := fun hts => h ⟨t, List.mem_cons_self t ts, hts⟩
    have h' : ¬ ∃ u ∈ ts, u.symbol = s :=
      fun ⟨u, hu, hus⟩ => h ⟨u, List.mem_cons_of_mem t hu, hus⟩
    apply ih _ s h'
    rw [lookupQty_upsertAdd_other acc t.symbol s (signedQty t)
      (fun hss => hts hss.symm)]
    exact hn

theorem lookupQty_position_changes (ts : List ExecTrade) (s : ℕ)
    (h : ∃ t ∈ ts, t.symbol = s) :
    lookupQty (position_changes ts) s = some (netDelta s ts) := by
  have := lookupQty_netting_foldl ts [] s (Or.inl h)
  simpa [position_changes, lookupQty] using this

theorem lookupQty_position_changes_none (ts : List ExecTrade) (s : ℕ)
    (h : ¬ ∃ t ∈ ts, t.symbol = s) :
    lookupQty (position_changes ts) s = none :=
  lookupQty_netting_foldl_none ts [] s h (by simp [lookupQty])

theorem mem_keys_upsertAdd (acc : List (ℕ × ℚ)) (s x : ℕ) (d : ℚ) :
    x ∈ (upsertAdd acc s d).map Prod.fst ↔
      x = s ∨ x ∈ acc.map Prod.fst := by
  induction acc with
  | nil => simp [upsertAdd]
  | cons p rest ih =>
    obtain ⟨k, v⟩ := p
    by_cases hk : k = s
    · subst hk
      simp [upsertAdd]
    · simp [upsertAdd, hk, ih]
      tauto

theorem nodup_keys_upsertAdd (acc : List (ℕ × ℚ)) (s : ℕ) (d : ℚ)
    (h : (acc.map Prod.fst).Nodup) :
    ((upsertAdd acc s d).map Prod.fst).Nodup := by
  induction acc with
  | nil => simp [upsertAdd]
  | cons p rest ih =>
    obtain ⟨k, v⟩ := p
    simp only [List.map_cons, List.nodup_cons] at h
    by_cases hk : k = s
    · subst hk
      simpa [upsertAdd] using h
    · simp only [upsertAdd, if_neg hk, List.map_cons, List.nodup_cons]
      refine ⟨?_, ih h.2⟩
      rw [mem_keys_upsertAdd]
      rintro (hks | hkm)
      · exact hk hks
      · exact h.1 hkm

theorem nodup_keys_position_changes (ts : List ExecTrade) :
    ((position_changes ts).map Prod.fst).Nodup := by
  have main : ∀ (l : List ExecTrade) (acc : List (ℕ × ℚ)),
      (acc.map Prod.fst).Nodup →
      ((l.foldl (fun acc t => upsertAdd acc t.symbol (signedQty t)) acc).map
        Prod.fst).Nodup := by
    intro l
    induction l with
    | nil => intro acc h; simpa using h
    | cons t ts ih =>
      intro acc h
      rw [List.foldl_cons]
      exact ih _ (nodup_keys_upsertAdd acc t.symbol (signedQty t) h)
  exact main ts [] (by simp)

theorem find?_position_changes (ts : List ExecTrade) (s : ℕ)
    (h : ∃ t ∈ ts, t.symbol = s) :
    (position_changes ts).find? (fun p => p.1 == s) = some (s, netDelta s ts) := by
  have hlk := lookupQty_position_changes ts s h
  unfold lookupQty at hlk
  cases hf : (position_changes ts).find? (fun p => p.1 == s) with
  | none => rw [hf] at hlk; cases hlk
  | some pr =>
    rw [hf] at hlk
    have h2 : pr.2 = netDelta s ts := by simpa using hlk
    have h1 : pr.1 = s := by
      have := List.find?_some hf
      simpa using this
    have hpr : pr = (s, netDelta s ts) := Prod.ext h1 h2
    rw [hpr]

/-- Filtering a key-preserving `filterMap` by a key, under `Nodup` keys,
returns the image of the unique row with that key. -/
theorem filter_filterMap_key (f : (ℕ × ℚ) → Option (ℕ × ℚ))
    (hf : ∀ x y, f x = some y → y.1 = x.1) :
    ∀ (L : List (ℕ × ℚ)) (s : ℕ), (L.map Prod.fst).Nodup →
    (L.filterMap f).filter (fun p => p.1 == s) =
      (match L.find? (fun p => p.1 == s) with
       | some x => (f x).toList
       | none => []) := by
  intro L
  induction L with
  | nil => intro s _; simp
  | cons x L ih =>
    intro s hnd
    simp only [List.map_cons, List.nodup_cons] at hnd
    by_cases hx : x.1 = s
    · have hpred : (x.1 == s) = true := by simp [hx]
      rw [List.find?_cons_of_pos (p := fun q => q.1 == s) L hpred]
      have hnone : (L.filterMap f).filter (fun p => p.1 == s) = [] := by
        rw [ih s hnd.2]
        have : L.find? (fun p => p.1 == s) = none := by
          apply List.find?_eq_none.mpr
          intro p hp
          simp only [beq_iff_eq]
          intro hps
          exact hnd.1 (by rw [← hx] at hps; exact hps ▸ List.mem_map_of_mem Prod.fst hp)
        rw [this]
      cases hfx : f x with
      | none => simp [List.filterMap_cons, hfx, hnone]
      | some y =>
        have hy : y.1 = s := by rw [hf x y hfx, hx]
        simp [List.filterMap_cons, hfx, List.filter_cons, hy, hnone]
    · have hpred : (x.1 == s) = false := by simp [hx]
      rw [List.find?_cons_of_neg (p := fun q => q.1 == s) L (by simp [hx])]
      cases hfx : f x with
      | none => simp only [List.filterMap_cons, hfx]; exact ih s hnd.2
      | some y =>
        have hy : (y.1 == s) = false := by simp [hf x y hfx, hx]
        simp only [List.filterMap_cons, hfx, List.filter_cons, hy]
        exact ih s hnd.2

theorem side_sell_ne_buy : (Side.sell = Side.buy) = False :=
  eq_false (fun h => nomatch h)

theorem side_buy_ne_sell : (Side.buy = Side.sell) = False :=
  eq_false (fun h => nomatch h)

theorem newPositionRow_key (cur : List (ℕ × ℚ)) :
    ∀ x y, newPositionRow cur x = some y → y.1 = x.1 := by
  intro x y h
  unfold newPositionRow at h
  split at h
  · cases h; rfl
  · split at h
    · cases h; rfl
    · cases h

/-! ## Claim C8 — one snapshot per affected symbol -/

/-- C8 (amended): for every symbol `s` traded in the batch, the snapshots
written by `execute_trades` contain exactly one row for `s`, of quantity
`latest prior quantity + net delta` when that sum is positive; when the sum
is zero or negative, the single row has quantity 0 if a prior position row
exists, and no row at all is written otherwise.  (The source clamps
non-positive results to an explicit 0-quantity snapshot and omits symbols
that end non-positive without a prior row, rather than writing
`prior + delta` itself — see the counterexample.) -/
theorem execute_trades_one_snapshot_per_symbol (ts : List ExecTrade)
    (cur : List (ℕ × ℚ)) (s : ℕ) (hs : ∃ t ∈ ts, t.symbol = s) :
    (execute_trades_positions ts cur).filter (fun p => p.1 == s) =
      (if 0 < (lookupQty cur s).getD 0 + netDelta s ts then
        [(s, (lookupQty cur s).getD 0 + netDelta s ts)]
      else if cur.any (fun p => p.1 == s) then [(s, 0)]
      else []) := by
  unfold execute_trades_positions
  rw [filter_filterMap_key (newPositionRow cur) (newPositionRow_key cur)
    (position_changes ts) s (nodup_keys_position_changes ts)]
  rw [find?_position_changes ts s hs]
  unfold newPositionRow
  by_cases h1 : 0 < (lookupQty cur s).getD 0 + netDelta s ts
  · simp [h1]
  · by_cases h2 : cur.any (fun p => p.1 == s)
    · simp [h1, h2]
    · simp [h1, h2]

/-- C8 counterexample: executing a single sell of 10 shares of symbol 1
while holding 5 shares.  Latest prior quantity plus net delta is −5, but the
snapshot written is a clamped zero-quantity row, not a −5 row. -/
theorem execute_trades_snapshot_clamped :
    execute_trades_positions [⟨1, Side.sell, 10⟩] [(1, 5)] = [(1, 0)] ∧
    (lookupQty [((1:ℕ), (5:ℚ))] 1).getD 0 +
      netDelta 1 [⟨1, Side.sell, 10⟩] = -5 ∧
    ((-5 : ℚ)) ≠ 0 := by
  refine ⟨?_, ?_, by norm_num⟩
  · norm_num [execute_trades_positions, position_changes, upsertAdd,
      newPositionRow, lookupQty, netDelta, signedQty, side_sell_ne_buy,
      List.foldl_cons, List.foldl_nil, List.filterMap_cons,
      List.filterMap_nil, List.filter_cons, List.filter_nil]
  · norm_num [lookupQty, netDelta, signedQty, side_sell_ne_buy,
      List.filter_cons, List.filter_nil]

/-- Witness for the amended C8: one buy of 3 shares of symbol 2, no prior
positions, yields exactly one snapshot of quantity 3. -/
theorem execute_trades_one_snapshot_per_symbol_witness :
    (∃ t ∈ [(⟨2, Side.buy, 3⟩ : ExecTrade)], t.symbol = 2) ∧
    (execute_trades_positions [⟨2, Side.buy, 3⟩] []).filter (fun p => p.1 == 2) =
      (if 0 < (lookupQty [] 2).getD 0 + netDelta 2 [⟨2, Side.buy, 3⟩] then
        [(2, (lookupQty [] 2).getD 0 + netDelta 2 [⟨2, Side.buy, 3⟩])]
      else if ([] : List (ℕ × ℚ)).any (fun p => p.1 == 2) then [(2, 0)]
      else []) :=
  ⟨⟨⟨2, Side.buy, 3⟩, List.mem_cons_self _ _, rfl⟩,
   execute_trades_one_snapshot_per_symbol [⟨2, Side.buy, 3⟩] [] 2
     ⟨⟨2, Side.buy, 3⟩, List.mem_cons_self _ _, rfl⟩⟩

/-! ## Allocation batch writer: `add_allocations` (`add_allocations.py`)

`add_allocations` first validates that the allocation percentages sum to 1
within `0.0001` — raising (before any database write) with a message citing
the actual total — then resolves each ticker to a symbol id (raising on an
unknown ticker, which rolls back every pending row) and inserts one
allocation row per ticker.  Errors carry the data the raised message
carries. -/

/-- Why a batch is rejected: sum validation (with the offending total, which
the error message cites) or an unknown ticker. -/
inductive AllocError where
  | badSum (total : ℚ)
  | unknownSymbol (ticker : String)
  deriving DecidableEq, Repr

/-- The per-ticker insertion loop: resolves tickers left to right, failing
wholesale on the first unknown ticker (session rollback). -/
def writeAllocRows (symbolId : String → Option ℕ) :
    List (String × ℚ) → Except AllocError (List (ℕ × ℚ))
  | [] => .ok []
  | (t, p) :: rest =>
    match symbolId t with
    | none => .error (.unknownSymbol t)
    | some sid =>
      match writeAllocRows symbolId rest with
      | .ok rows => .ok ((sid, p) :: rows)
      | .error e => .error e

/-- `add_allocations`: reject when `abs(total - 1) > 0.0001`, before any
write; otherwise write one row per ticker. -/
def add_allocations (symbolId : String → Option ℕ)
    (allocations : List (String × ℚ)) : Except AllocError (List (ℕ × ℚ)) :=
  if 1/10000 < |(allocations.map Prod.snd).sum - 1| then
    .error (.badSum ((allocations.map Prod.snd).sum))
  else writeAllocRows symbolId allocations

theorem writeAllocRows_ok (symbolId : String → Option ℕ) :
    ∀ l : List (String × ℚ), (∀ t ∈ l, (symbolId t.1).isSome) →
      ∃ rows, writeAllocRows symbolId l = .ok rows ∧
        rows.length = l.length := by
  intro l
  induction l with
  | nil => intro _; exact ⟨[], rfl, rfl⟩
  | cons x rest ih =>
    intro h
    obtain ⟨t, p⟩ := x
    obtain ⟨sid, hsid⟩ := Option.isSome_iff_exists.mp
      (h (t, p) (List.mem_cons_self _ _))
    obtain ⟨rows, hrows, hlen⟩ :=
      ih (fun u hu => h u (List.mem_cons_of_mem _ hu))
    refine ⟨(sid, p) :: rows, ?_, by simp [hlen]⟩
    simp only [writeAllocRows, hsid, hrows]

/-! ## Claim C6 — allocation-sum validation -/

/-- C6: a batch whose percentages sum more than 0.0001 away from 1 is
rejected before any row is written, with an error citing the actual sum; a
batch within tolerance whose tickers all resolve is accepted and writes one
row per ticker. -/
theorem add_allocations_sum_validation (symbolId : String → Option ℕ)
    (allocations : List (String × ℚ)) :
    (1/10000 < |(allocations.map Prod.snd).sum - 1| →
      add_allocations symbolId allocations =
        .error (.badSum ((allocations.map Prod.snd).sum))) ∧
    (|(allocations.map Prod.snd).sum - 1| ≤ 1/10000 →
      (∀ t ∈ allocations, (symbolId t.1).isSome) →
      ∃ rows, add_allocations symbolId allocations = .ok rows ∧
        rows.length = allocations.length) := by
  constructor
  · intro h
    simp only [add_allocations, if_pos h]
  · intro h hall
    obtain ⟨rows, hrows, hlen⟩ := writeAllocRows_ok symbolId allocations hall
    refine ⟨rows, ?_, hlen⟩
    simp only [add_allocations, if_neg (not_lt.mpr h), hrows]

/-- Ticker table for the C6 witness. -/
def symsC6 : String → Option ℕ :=
  fun t => if t = "AAPL" then some 1 else if t = "MSFT" then some 2 else none

/-- The spec's rejected batch: `{"AAPL": 0.6, "MSFT": 0.3}` (sums to 0.9). -/
def rejectedBatch : List (String × ℚ) := [("AAPL", 6/10), ("MSFT", 3/10)]

/-- The spec's accepted batch: `{"AAPL": 0.6, "MSFT": 0.4}` (sums to 1). -/
def acceptedBatch : List (String × ℚ) := [("AAPL", 6/10), ("MSFT", 4/10)]

/-- Witness for C6 on the two batches the spec names: 0.9 is rejected with
the sum in the error, 1.0 is accepted and writes both rows. -/
theorem add_allocations_sum_validation_witness :
    (1/10000 < |((rejectedBatch.map Prod.snd).sum - 1)|) ∧
    add_allocations symsC6 rejectedBatch =
      .error (.badSum ((rejectedBatch.map Prod.snd).sum)) ∧
    (|((acceptedBatch.map Prod.snd).sum - 1)| ≤ 1/10000) ∧
    (∃ rows, add_allocations symsC6 acceptedBatch = .ok rows ∧
      rows.length = acceptedBatch.length) := by
  have h1 : 1/10000 < |((rejectedBatch.map Prod.snd).sum - 1)| := by
    norm_num [rejectedBatch, lt_abs]
  have h3 : |((acceptedBatch.map Prod.snd).sum - 1)| ≤ 1/10000 := by
    norm_num [acceptedBatch, abs_le]
  have hall : ∀ t ∈ acceptedBatch, (symsC6 t.1).isSome := by
    intro t ht
    rcases List.mem_cons.mp ht with h | h
    · subst h; decide
    · rcases List.mem_cons.mp h with h' | h'
      · subst h'; decide
      · cases h'
  exact ⟨h1, (add_allocations_sum_validation symsC6 rejectedBatch).1 h1,
    h3, (add_allocations_sum_validation symsC6 acceptedBatch).2 h3 hall⟩

/-! ## Valuation replay engine (`update_portfolio_balance.py`)

Rows of the queried portfolio.  Timestamps (`recordedAt`, `tradedAt`) are
rationals; midnight of calendar day `d` is `(d : ℚ)`.  Price rows carry a
plain date (`ℤ`).  Day 0 is Monday 2024-01-01, so `is_trading_day` tests
`d % 7 < 5`. -/

/-- One `portfolio_stats` row (one portfolio, so no portfolio id). -/
structure StatRow where
  recordedAt : ℚ
  balance : ℚ
  alpha : PyVal
  beta : PyVal
  maxDrawdown : PyVal
  sharpe : PyVal
  stdDev : PyVal
  turnover : ℚ
  deriving DecidableEq, Repr

/-- One `positions` row. -/
structure PosRow where
  symbol : ℕ
  qty : ℚ
  recordedAt : ℚ
  deriving DecidableEq, Repr

/-- One `trades` row; `value` is the generated `price * quantity` column,
used by the turnover calculation when present. -/
structure TradeRow where
  symbol : ℕ
  side : Side
  qty : ℚ
  price : ℚ
  value : Option ℚ
  tradedAt : ℚ
  deriving DecidableEq, Repr

/-- One `symbol_prices` row (`price_at` is a bare date). -/
structure PriceRow where
  symbol : ℕ
  day : ℤ
  price : ℚ
  deriving DecidableEq, Repr

/-- The quantstats / pandas statistics library, an external collaborator:
each call may raise (`.error`) or return a possibly non-finite value. -/
structure QSLib where
  sharpe : List ℚ → Except Unit PyVal
  maxDrawdown : List ℚ → Except Unit PyVal
  greeks : List ℚ → List ℚ → Except Unit (PyVal × PyVal)
  std : List ℚ → Except Unit PyVal

/-- The database state visible to the engine for one portfolio: its
positions, stats and trades, the global price table, and the symbol ids of
`SPY` and `MONEY_MARKET` when those symbols exist. -/
structure DB where
  positions : List PosRow
  stats : List StatRow
  trades : List TradeRow
  prices : List PriceRow
  spy : Option ℕ
  mm : Option ℕ

/-- `is_trading_day`: weekdays only (Saturday = 5, Sunday = 6 with day 0 a
Monday); the holiday calendar is explicitly out of scope. -/
def is_trading_day (d : ℤ) : Bool := d % 7 < 5

/-- Latest row of a price-row list by date (first wins ties, matching
`order_by desc` + `first()` on equal dates). -/
def maxByDay (l : List PriceRow) : Option PriceRow :=
  l.foldl (fun acc p =>
    match acc with
    | none => some p
    | some q => if q.day < p.day then some p else some q) none

/-- `get_symbol_price` (`utils.py`): 1.00 for `MONEY_MARKET`; else the price
on the exact date; else the most recent earlier price; else 0. -/
def get_symbol_price (db : DB) (s : ℕ) (d : ℤ) : ℚ :=
  if db.mm = some s then 1
  else
    match db.prices.find? (fun p => p.symbol == s && p.day == d) with
    | some p => p.price
    | none =>
      match maxByDay (db.prices.filter (fun p => p.symbol == s && p.day < d)) with
      | some p => p.price
      | none => 0

/-- Latest position row of a symbol within an availability list (maximal
`recordedAt`, first wins ties). -/
def latestPosFor (avail : List PosRow) (s : ℕ) : Option PosRow :=
  (avail.filter (fun p => p.symbol == s)).foldl (fun acc p =>
    match acc with
    | none => some p
    | some q => if q.recordedAt < p.recordedAt then some p else some q) none

/-- Latest position per distinct symbol of an availability list. -/
def latestPerSymbol (avail : List PosRow) : List PosRow :=
  ((avail.map (fun p => p.symbol)).dedup).filterMap (latestPosFor avail)

/-- The replay's position query: latest snapshot per symbol with
`recorded_at <= trading_day` (midnight of `d`). -/
def latestPositionsLe (db : DB) (d : ℤ) : List PosRow :=
  latestPerSymbol (db.positions.filter (fun p => p.recordedAt ≤ (d : ℚ)))

/-- Total portfolio value on a day: sum of latest quantity times day price
over every symbol positioned at or before the day (a missing price prices
the symbol at 0, logged, never an abort). -/
def positionsValue (db : DB) (d : ℤ) : ℚ :=
  ((latestPositionsLe db d).map
    (fun p => get_symbol_price db p.symbol d * p.qty)).sum

/-! ### Metrics calculator (`calculate_portfolio_metrics`) -/

/-- `pandas` `pct_change().dropna()` then dropping `±inf`: day-over-day
returns on an indexed series, keeping the current row's index and dropping
entries whose previous value is 0 (the inf/NaN division artifacts). -/
def pctChange (l : List (ℚ × ℚ)) : List (ℚ × ℚ) :=
  (l.zip l.tail).filterMap (fun pc =>
    if pc.1.2 = 0 then none
    else some (pc.2.1, (pc.2.2 - pc.1.2) / pc.1.2))

/-- `Series.align(other, join='inner')`, left component: the rows whose
index also appears in the other series. -/
def alignFst (a b : List (ℚ × ℚ)) : List (ℚ × ℚ) :=
  a.filter (fun x => b.any (fun y => y.1 == x.1))

/-- The five statistics of `calculate_portfolio_metrics`. -/
structure Metrics where
  alpha : PyVal
  beta : PyVal
  sharpe : PyVal
  maxDrawdown : PyVal
  stdDev : PyVal
  deriving DecidableEq, Repr

/-- The all-zero metrics returned on insufficient data. -/
def zeroMetrics : Metrics :=
  ⟨.num 0, .num 0, .num 0, .num 0, .num 0⟩

/-- The portfolio-stat rows inside `[end_date - lookback, end_date]`
(`recorded_at >= start` midnight, `< end_date + 1` midnight). -/
def statWindow (db : DB) (endDay : ℤ) (lookback : ℤ) : List StatRow :=
  db.stats.filter (fun st =>
    ((endDay - lookback : ℤ) : ℚ) ≤ st.recordedAt &&
      st.recordedAt < ((endDay + 1 : ℤ) : ℚ))

/-- The benchmark-less fallback of `calculate_portfolio_metrics`:
alpha = beta = 0, Sharpe / max drawdown / std straight from the library;
these three calls sit outside any `try`, so an exception propagates to the
caller. -/
def fallbackMetrics (lib : QSLib) (rets : List ℚ) : Except Unit Metrics :=
  match lib.sharpe rets with
  | .error e => .error e
  | .ok sh =>
    match lib.maxDrawdown rets with
    | .error e => .error e
    | .ok mdd =>
      match lib.std rets with
      | .error e => .error e
      | .ok sd => .ok ⟨.num 0, .num 0, sh, mdd, sd⟩

/-- `calculate_portfolio_metrics`.  Fewer than 2 stat rows in the window:
all-zero metrics.  No `SPY` symbol or no benchmark prices in the window:
alpha = beta = 0 and Sharpe/max-drawdown/std straight from the library
(exceptions propagate — these calls are outside any `try`).  Fewer than 2
aligned points: all-zero metrics.  Otherwise each statistic is computed in
its own `try` (an exception zeroes only that statistic); the subsequent
`locals()[_name] = 0.0` sanitize loop is a no-op in CPython (assignment to
`locals()` does not rebind function locals), so NaN/inf values returned by
the library pass through; alpha and beta are rounded to 3 decimals. -/
def calculate_portfolio_metrics (lib : QSLib) (db : DB) (endDay : ℤ)
    (lookback : ℤ) : Except Unit Metrics :=
  if (statWindow db endDay lookback).length < 2 then .ok zeroMetrics
  else
    let preturns := pctChange ((statWindow db endDay lookback).map
      (fun st => (st.recordedAt, st.balance)))
    match db.spy with
    | none => fallbackMetrics lib (preturns.map Prod.snd)
    | some spyId =>
        if (db.prices.filter (fun p => p.symbol == spyId &&
            endDay - lookback ≤ p.day && p.day ≤ endDay)) = [] then
          fallbackMetrics lib (preturns.map Prod.snd)
        else
          let breturns := pctChange ((db.prices.filter (fun p => p.symbol == spyId &&
            endDay - lookback ≤ p.day && p.day ≤ endDay)).map
              (fun p => ((p.day : ℚ), p.price)))
          if (alignFst preturns breturns).length < 2 then .ok zeroMetrics
          else
            let pr := (alignFst preturns breturns).map Prod.snd
            let br := (alignFst breturns preturns).map Prod.snd
            let ab := match lib.greeks pr br with
              | .ok v => v
              | .error _ => (.num 0, .num 0)
            let sh := match lib.sharpe pr with
              | .ok v => v
              | .error _ => .num 0
            let mdd := match lib.maxDrawdown pr with
              | .ok v => v
              | .error _ => .num 0
            let sd := if 1 < pr.length then
                (match lib.std pr with
                 | .ok v => v
                 | .error _ => .num 0)
              else .num 0
            .ok ⟨ab.1.round3, ab.2.round3, sh, mdd, sd⟩

/-! ### Turnover (`calculate_portfolio_turnover`) -/

/-- Absolute traded value of one trade: the generated `value` column when
present, else `price * quantity`, in absolute value. -/
def tradeValue (t : TradeRow) : ℚ :=
  |t.value.getD (t.price * t.qty)|

/-- The trades inside `[end_date - lookback, end of end_date]`. -/
def tradesWindow (db : DB) (endDay : ℤ) (lookback : ℤ) : List TradeRow :=
  db.trades.filter (fun t =>
    ((endDay - lookback : ℤ) : ℚ) ≤ t.tradedAt &&
      t.tradedAt < ((endDay + 1 : ℤ) : ℚ))

/-- The stat rows inside the turnover window (same bounds). -/
def turnoverStatsWindow (db : DB) (endDay : ℤ) (lookback : ℤ) : List StatRow :=
  db.stats.filter (fun st =>
    ((endDay - lookback : ℤ) : ℚ) ≤ st.recordedAt &&
      st.recordedAt < ((endDay + 1 : ℤ) : ℚ))

/-- Total buy-side traded value in the window. -/
def totalBuys (db : DB) (endDay : ℤ) (lookback : ℤ) : ℚ :=
  (((tradesWindow db endDay lookback).filter
    (fun t => t.side == Side.buy)).map tradeValue).sum

/-- Total sell-side traded value in the window. -/
def totalSells (db : DB) (endDay : ℤ) (lookback : ℤ) : ℚ :=
  (((tradesWindow db endDay lookback).filter
    (fun t => t.side == Side.sell)).map tradeValue).sum

/-- The average balance the turnover divides by: the mean portfolio balance
over the window's stat rows, or — when no stat row falls in the window — the
value of the latest positions at the end date. -/
def averageValue (db : DB) (endDay : ℤ) (lookback : ℤ) : ℚ :=
  if turnoverStatsWindow db endDay lookback = [] then
    ((latestPerSymbol (db.positions.filter
        (fun p => p.recordedAt < ((endDay + 1 : ℤ) : ℚ)))).map
      (fun p => p.qty * get_symbol_price db p.symbol endDay)).sum
  else
    ((turnoverStatsWindow db endDay lookback).map
      (fun st => st.balance)).sum / (turnoverStatsWindow db endDay lookback).length

/-- `calculate_portfolio_turnover`: 0 on an empty trade window or a zero
average balance, otherwise `max(buys, sells) / average * (365 / lookback)`
quantized to 8 decimal places (ROUND_HALF_EVEN, the context default). -/
def calculate_portfolio_turnover (db : DB) (endDay : ℤ) (lookback : ℤ) : ℚ :=
  if tradesWindow db endDay lookback = [] then 0
  else if averageValue db endDay lookback = 0 then 0
  else quantHalfEven 8
    (max (totalBuys db endDay lookback) (totalSells db endDay lookback) /
      averageValue db endDay lookback * (365 / lookback))

/-! ### Per-day transition and month replay -/

/-- The state carried between days (`last_known_*`); the source keeps no
carried Sharpe ratio. -/
structure Carry where
  balance : Option ℚ
  alpha : Option PyVal
  beta : Option PyVal
  maxDrawdown : Option PyVal
  stdDev : Option PyVal
  turnover : Option ℚ
  deriving DecidableEq, Repr

/-- `update_portfolio_balance_for_day`.  On a non-trading day with a known
balance: emit the carried balance and metrics, `sharpe_ratio` written as
`Decimal('0')`, dated at the day's midnight.  Otherwise (trading day, or
weekend with no carried balance): recompute total value over the latest
positions and day prices — skipping the day entirely when no position row
exists —, compute metrics (an exception escaping `calculate_portfolio_metrics`
aborts the day and leaves the carry unchanged) and turnover, and emit the
recomputed row.  Returns the emitted row, the database with the row
appended, and the new carry. -/
def update_portfolio_balance_for_day (lib : QSLib) (db : DB) (d : ℤ)
    (c : Carry) : Option StatRow × DB × Carry :=
  if !(is_trading_day d) && c.balance.isSome then
    (some ⟨(d : ℚ), c.balance.getD 0, c.alpha.getD (.num 0), c.beta.getD (.num 0),
       c.maxDrawdown.getD (.num 0), .num 0, c.stdDev.getD (.num 0),
       c.turnover.getD 0⟩,
     { db with stats := db.stats ++
        [⟨(d : ℚ), c.balance.getD 0, c.alpha.getD (.num 0), c.beta.getD (.num 0),
          c.maxDrawdown.getD (.num 0), .num 0, c.stdDev.getD (.num 0),
          c.turnover.getD 0⟩] },
     ⟨some (c.balance.getD 0), some (c.alpha.getD (.num 0)),
      some (c.beta.getD (.num 0)), some (c.maxDrawdown.getD (.num 0)),
      some (c.stdDev.getD (.num 0)), some (c.turnover.getD 0)⟩)
  else if latestPositionsLe db d = [] then (none, db, c)
  else
    match calculate_portfolio_metrics lib db d 90 with
    | .error _ => (none, db, c)
    | .ok m =>
      (some ⟨(d : ℚ), positionsValue db d, m.alpha, m.beta, m.maxDrawdown,
         m.sharpe, m.stdDev, calculate_portfolio_turnover db d 60⟩,
       { db with stats := db.stats ++
          [⟨(d : ℚ), positionsValue db d, m.alpha, m.beta, m.maxDrawdown,
            m.sharpe, m.stdDev, calculate_portfolio_turnover db d 60⟩] },
       ⟨some (positionsValue db d), some m.alpha, some m.beta,
        some m.maxDrawdown, some m.stdDev,
        some (calculate_portfolio_turnover db d 60)⟩)

/-- Latest stat row strictly before a timestamp (first wins ties). -/
def latestStatBefore (db : DB) (bound : ℚ) : Option StatRow :=
  (db.stats.filter (fun st => decide (st.recordedAt < bound))).foldl
    (fun acc st =>
      match acc with
      | none => some st
      | some q => if q.recordedAt < st.recordedAt then some st else some q)
    none

/-- The initial carry of a month replay: the most recent stat before the
month's first day, when one exists. -/
def initialCarry (db : DB) (firstDay : ℤ) : Carry :=
  match latestStatBefore db (firstDay : ℚ) with
  | some st => ⟨some st.balance, some st.alpha, some st.beta,
      some st.maxDrawdown, some st.stdDev, some st.turnover⟩
  | none => ⟨none, none, none, none, none, none⟩

/-- The day loop of `update_portfolio_balance`: thread the carry through the
days in order, collecting each day's emitted row (`none` marks a skipped,
errored day). -/
def replayDays (lib : QSLib) : List ℤ → DB → Carry → List (ℤ × Option StatRow)
  | [], _, _ => []
  | d :: rest, db, c =>
    match update_portfolio_balance_for_day lib db d c with
    | (r, db', c') => (d, r) :: replayDays lib rest db' c'

/-- `update_portfolio_balance` over the days of a month (the source builds
the list with `get_all_days_in_month`; here the consecutive day list is
passed in). -/
def update_portfolio_balance (lib : QSLib) (db : DB) (days : List ℤ) :
    List (ℤ × Option StatRow) :=
  match days with
  | [] => []
  | d :: _ => replayDays lib days db (initialCarry db d)

/-- `ensure_initial_position` (`backtest_allocations.py`): clear every
position, stat and trade row of the portfolio, then insert the seed
1,000,000-unit `MONEY_MARKET` position and the seed stat, both dated
2024-01-01 (day 0); a missing `MONEY_MARKET` symbol falls back to a
hard-coded id. -/
def ensure_initial_position (db : DB) : DB :=
  { db with
    positions := [⟨db.mm.getD 999, 1000000, 0⟩],
    stats := [⟨0, 1000000, .num 0, .num 0, .num 0, .num 0, .num 0, 0⟩],
    trades := [] }

/-! ## Claim C4 — insufficient history returns all-zero metrics -/

/-- C4: with fewer than two portfolio-stat rows in the lookback window the
metrics calculator returns all-zero metrics and cannot raise, whatever the
statistics library does. -/
theorem calculate_portfolio_metrics_insufficient_history (lib : QSLib)
    (db : DB) (endDay lookback : ℤ)
    (h : (statWindow db endDay lookback).length < 2) :
    calculate_portfolio_metrics lib db endDay lookback = .ok zeroMetrics := by
  unfold calculate_portfolio_metrics
  rw [if_pos h]

/-- A statistics library whose calls all succeed with 0 (used to instantiate
library-polymorphic witnesses). -/
def libZero : QSLib :=
  { sharpe := fun _ => .ok (.num 0)
    maxDrawdown := fun _ => .ok (.num 0)
    greeks := fun _ _ => .ok (.num 0, .num 0)
    std := fun _ => .ok (.num 0) }

/-- A portfolio with a single stat row (recorded at day 0). -/
def dbC4 : DB :=
  { positions := [], stats := [⟨0, 100, .num 0, .num 0, .num 0, .num 0, .num 0, 0⟩],
    trades := [], prices := [], spy := none, mm := none }

/-- Witness for C4: one stat row in the 90-day window ending day 5. -/
theorem calculate_portfolio_metrics_insufficient_history_witness :
    (statWindow dbC4 5 90).length < 2 ∧
    calculate_portfolio_metrics libZero dbC4 5 90 = .ok zeroMetrics := by
  have h : (statWindow dbC4 5 90).length < 2 := by
    norm_num [statWindow, dbC4, List.filter_cons, List.filter_nil]
  exact ⟨h, calculate_portfolio_metrics_insufficient_history libZero dbC4 5 90 h⟩

/-! ## Claim C5 — turnover formula -/

theorem quantHalfEven_nonneg (n : ℕ) (x : ℚ) (hx : 0 ≤ x) :
    0 ≤ quantHalfEven n x := by
  unfold quantHalfEven
  have hs : (0:ℚ) < (10:ℚ) ^ n := by positivity
  have hm : (0:ℤ) ≤ ⌊x * (10:ℚ) ^ n⌋ := Int.floor_nonneg.mpr (by positivity)
  have hm1 : (0:ℤ) ≤ ⌊x * (10:ℚ) ^ n⌋ + 1 := by omega
  apply div_nonneg _ (le_of_lt hs)
  split
  · exact_mod_cast hm
  · split
    · exact_mod_cast hm1
    · split
      · exact_mod_cast hm
      · exact_mod_cast hm1

theorem totalBuys_nonneg (db : DB) (endDay lookback : ℤ) :
    0 ≤ totalBuys db endDay lookback := by
  apply List.sum_nonneg
  intro x hx
  obtain ⟨t, _, ht⟩ := List.mem_map.mp hx
  rw [← ht]
  exact abs_nonneg _

theorem totalSells_nonneg (db : DB) (endDay lookback : ℤ) :
    0 ≤ totalSells db endDay lookback := by
  apply List.sum_nonneg
  intro x hx
  obtain ⟨t, _, ht⟩ := List.mem_map.mp hx
  rw [← ht]
  exact abs_nonneg _

/-- C5 (amended): the turnover is `max(total buys, total sells)` over the
60-day trade window divided by the average portfolio balance over the window
(estimated from latest positions when no stat row falls in the window),
annualized by `365 / lookback` and rounded to 8 decimal places (half-even);
an empty trade window or a zero average yields exactly 0; and the result is
never negative when the average is non-negative. -/
theorem calculate_portfolio_turnover_formula (db : DB) (endDay lookback : ℤ) :
    (tradesWindow db endDay lookback = [] →
      calculate_portfolio_turnover db endDay lookback = 0) ∧
    (averageValue db endDay lookback = 0 →
      calculate_portfolio_turnover db endDay lookback = 0) ∧
    (tradesWindow db endDay lookback ≠ [] →
      averageValue db endDay lookback ≠ 0 →
      calculate_portfolio_turnover db endDay lookback =
        quantHalfEven 8
          (max (totalBuys db endDay lookback) (totalSells db endDay lookback) /
            averageValue db endDay lookback * (365 / lookback))) ∧
    (0 ≤ averageValue db endDay lookback → 0 < lookback →
      0 ≤ calculate_portfolio_turnover db endDay lookback) := by
  refine ⟨?_, ?_, ?_, ?_⟩
  · intro h
    simp [calculate_portfolio_turnover, h]
  · intro h
    unfold calculate_portfolio_turnover
    split
    · rfl
    · simp [h]
  · intro h1 h2
    unfold calculate_portfolio_turnover
    rw [if_neg h1, if_neg h2]
  · intro havg hlb
    unfold calculate_portfolio_turnover
    split
    · norm_num
    · split
      · norm_num
      · apply quantHalfEven_nonneg
        apply mul_nonneg
        · apply div_nonneg
          · exact le_max_of_le_left (totalBuys_nonneg db endDay lookback)
          · exact havg
        · apply div_nonneg
          · norm_num
          · exact_mod_cast le_of_lt hlb

/-- A portfolio with one 1-value buy at day 30 and one stat row of balance
3 in the 60-day window ending day 60. -/
def dbC5 : DB :=
  { positions := [],
    stats := [⟨30, 3, .num 0, .num 0, .num 0, .num 0, .num 0, 0⟩],
    trades := [⟨1, Side.buy, 1, 1, none, 30⟩],
    prices := [], spy := none, mm := none }

/-- C5 counterexample: on `dbC5` the exact formula gives
`(1/3) * (365/60) = 365/180`, but the function returns the 8-decimal
half-even rounding `2.02777778`, which differs. -/
theorem calculate_portfolio_turnover_rounds :
    calculate_portfolio_turnover dbC5 60 60 = 202777778/100000000 ∧
    (202777778/100000000 : ℚ) ≠
      max (totalBuys dbC5 60 60) (totalSells dbC5 60 60) /
        averageValue dbC5 60 60 * (365 / 60) := by
  have hb : totalBuys dbC5 60 60 = 1 := by
    norm_num [totalBuys, tradesWindow, dbC5, tradeValue,
      List.filter_cons, List.filter_nil]
  have hs : totalSells dbC5 60 60 = 0 := by
    norm_num [totalSells, tradesWindow, dbC5, tradeValue, side_sell_ne_buy,
      side_buy_ne_sell, List.filter_cons, List.filter_nil]
  have hw : tradesWindow dbC5 60 60 = [⟨1, Side.buy, 1, 1, none, 30⟩] := by
    norm_num [tradesWindow, dbC5, List.filter_cons, List.filter_nil]
  have hsw : turnoverStatsWindow dbC5 60 60 =
      [⟨30, 3, .num 0, .num 0, .num 0, .num 0, .num 0, 0⟩] := by
    norm_num [turnoverStatsWindow, dbC5, List.filter_cons, List.filter_nil]
  have hav : averageValue dbC5 60 60 = 3 := by
    rw [averageValue, if_neg (by rw [hsw]; exact fun h => nomatch h), hsw]
    norm_num
  constructor
  · rw [calculate_portfolio_turnover,
      if_neg (by rw [hw]; exact fun h => nomatch h),
      if_neg (by rw [hav]; norm_num), hb, hs, hav]
    norm_num [quantHalfEven]
  · rw [hb, hs, hav]
    norm_num

/-- Witness for the amended C5 at `dbC5`. -/
theorem calculate_portfolio_turnover_formula_witness :
    tradesWindow dbC5 60 60 ≠ [] ∧
    averageValue dbC5 60 60 ≠ 0 ∧
    0 ≤ averageValue dbC5 60 60 ∧ (0:ℤ) < 60 ∧
    calculate_portfolio_turnover dbC5 60 60 =
      quantHalfEven 8
        (max (totalBuys dbC5 60 60) (totalSells dbC5 60 60) /
          averageValue dbC5 60 60 * (365 / ((60:ℤ) : ℚ))) ∧
    0 ≤ calculate_portfolio_turnover dbC5 60 60 := by
  have hw : tradesWindow dbC5 60 60 = [⟨1, Side.buy, 1, 1, none, 30⟩] := by
    norm_num [tradesWindow, dbC5, List.filter_cons, List.filter_nil]
  have hsw : turnoverStatsWindow dbC5 60 60 =
      [⟨30, 3, .num 0, .num 0, .num 0, .num 0, .num 0, 0⟩] := by
    norm_num [turnoverStatsWindow, dbC5, List.filter_cons, List.filter_nil]
  have hav : averageValue dbC5 60 60 = 3 := by
    rw [averageValue, if_neg (by rw [hsw]; exact fun h => nomatch h), hsw]
    norm_num
  have h1 : tradesWindow dbC5 60 60 ≠ [] := by
    rw [hw]; exact fun h => nomatch h
  have h2 : averageValue dbC5 60 60 ≠ 0 := by rw [hav]; norm_num
  have h3 : 0 ≤ averageValue dbC5 60 60 := by rw [hav]; norm_num
  exact ⟨h1, h2, h3, by norm_num,
    (calculate_portfolio_turnover_formula dbC5 60 60).2.2.1 h1 h2,
    (calculate_portfolio_turnover_formula dbC5 60 60).2.2.2 h3 (by norm_num)⟩

/-! ## Claim C3 — per-statistic failure isolation and the dead sanitize loop -/

/-- A statistics library on which `qs.stats.sharpe` yields NaN (as it does
on a constant return series, where the volatility is 0) while the other
calls succeed with finite values. -/
def libNaN : QSLib :=
  { sharpe := fun _ => .ok .nan
    maxDrawdown := fun _ => .ok (.num (-1/10))
    greeks := fun _ _ => .ok (.num (1/100), .num (1/2))
    std := fun _ => .ok (.num (1/50)) }

/-- Balances 100, 110, 121 on days 1..3 (constant +10 % daily returns) and
a benchmark (`SPY` = symbol 2) price series on the same days. -/
def dbC3 : DB :=
  { positions := [],
    stats := [⟨1, 100, .num 0, .num 0, .num 0, .num 0, .num 0, 0⟩,
              ⟨2, 110, .num 0, .num 0, .num 0, .num 0, .num 0, 0⟩,
              ⟨3, 121, .num 0, .num 0, .num 0, .num 0, .num 0, 0⟩],
    trades := [], prices := [⟨2, 1, 10⟩, ⟨2, 2, 11⟩, ⟨2, 3, 12⟩],
    spy := some 2, mm := none }

/-- C3 at the failing input: when `qs.stats.sharpe` yields NaN, the returned
`sharpe_ratio` is NaN, not 0 — the `locals()[_name] = 0.0` sanitize loop
never rebinds the locals — while the other four statistics are returned
unaffected.  (Exceptions, by contrast, are caught per statistic.) -/
theorem calculate_portfolio_metrics_nan_passes_through :
    calculate_portfolio_metrics libNaN dbC3 3 90 =
      .ok ⟨.num (1/100), .num (1/2), .nan, .num (-1/10), .num (1/50)⟩ ∧
    PyVal.nan ≠ PyVal.num 0 := by
  constructor
  · norm_num [calculate_portfolio_metrics, statWindow, pctChange, alignFst,
      dbC3, libNaN, PyVal.round3, quantHalfEven, zeroMetrics,
      List.filter_cons, List.filter_nil, List.filterMap_cons,
      List.filterMap_nil, List.zip_cons_cons, List.zip_nil_right,
      List.zip_nil_left, List.tail_cons]
    intro h
    exact absurd h (by simp)
  · exact fun h => nomatch h

/-! ## Claim C10 — weekend day without a carried balance recomputes -/

/-- C10: on a non-trading day with no carried balance, the day is neither
carried forward nor skipped as a weekend: it takes the trading-day path —
the emitted stat is recomputed from the latest position snapshots and the
day's prices, with freshly computed metrics and turnover, and the carry is
reset to the recomputed values. -/
theorem update_day_weekend_no_carry_recomputes (lib : QSLib) (db : DB)
    (d : ℤ) (c : Carry) (m : Metrics)
    (hw : is_trading_day d = false) (hb : c.balance = none)
    (hpos : latestPositionsLe db d ≠ [])
    (hm : calculate_portfolio_metrics lib db d 90 = .ok m) :
    update_portfolio_balance_for_day lib db d c =
      (some ⟨(d : ℚ), positionsValue db d, m.alpha, m.beta, m.maxDrawdown,
         m.sharpe, m.stdDev, calculate_portfolio_turnover db d 60⟩,
       { db with stats := db.stats ++
          [⟨(d : ℚ), positionsValue db d, m.alpha, m.beta, m.maxDrawdown,
            m.sharpe, m.stdDev, calculate_portfolio_turnover db d 60⟩] },
       ⟨some (positionsValue db d), some m.alpha, some m.beta,
        some m.maxDrawdown, some m.stdDev,
        some (calculate_portfolio_turnover db d 60)⟩) := by
  unfold update_portfolio_balance_for_day
  rw [hb]
  simp only [Option.isSome_none, Bool.and_false, Bool.false_eq_true,
    if_false, if_neg hpos, hm]

/-- Weekend-recompute scenario: a 2-share position of symbol 1 priced 7 on
Saturday day 5, no stats, no trades, no carried balance. -/
def dbC10 : DB :=
  { positions := [⟨1, 2, 0⟩], stats := [], trades := [],
    prices := [⟨1, 5, 7⟩], spy := none, mm := none }

/-- The empty carry (no stat has ever been recorded). -/
def emptyCarry : Carry := ⟨none, none, none, none, none, none⟩

/-- Witness for C10 at `dbC10`, Saturday day 5. -/
theorem update_day_weekend_no_carry_recomputes_witness :
    is_trading_day 5 = false ∧ emptyCarry.balance = none ∧
    latestPositionsLe dbC10 5 ≠ [] ∧
    calculate_portfolio_metrics libZero dbC10 5 90 = .ok zeroMetrics ∧
    update_portfolio_balance_for_day libZero dbC10 5 emptyCarry =
      (some ⟨((5:ℤ) : ℚ), positionsValue dbC10 5, zeroMetrics.alpha,
         zeroMetrics.beta, zeroMetrics.maxDrawdown, zeroMetrics.sharpe,
         zeroMetrics.stdDev, calculate_portfolio_turnover dbC10 5 60⟩,
       { dbC10 with stats := dbC10.stats ++
          [⟨((5:ℤ) : ℚ), positionsValue dbC10 5, zeroMetrics.alpha,
            zeroMetrics.beta, zeroMetrics.maxDrawdown, zeroMetrics.sharpe,
            zeroMetrics.stdDev, calculate_portfolio_turnover dbC10 5 60⟩] },
       ⟨some (positionsValue dbC10 5), some zeroMetrics.alpha,
        some zeroMetrics.beta, some zeroMetrics.maxDrawdown,
        some zeroMetrics.stdDev,
        some (calculate_portfolio_turnover dbC10 5 60)⟩) := by
  have hw : is_trading_day 5 = false := by decide
  have hb : emptyCarry.balance = none := rfl
  have hpos : latestPositionsLe dbC10 5 ≠ [] := by
    have : latestPositionsLe dbC10 5 = [⟨1, 2, 0⟩] := by
      norm_num [latestPositionsLe, latestPerSymbol, latestPosFor, dbC10,
        List.filter_cons, List.filter_nil, List.filterMap_cons,
        List.filterMap_nil, List.foldl_cons, List.foldl_nil,
        List.dedup_cons_of_not_mem, List.dedup_nil]
    rw [this]
    exact fun h => nomatch h
  have hm : calculate_portfolio_metrics libZero dbC10 5 90 = .ok zeroMetrics := by
    norm_num [calculate_portfolio_metrics, statWindow, dbC10,
      List.filter_cons, List.filter_nil]
  exact ⟨hw, hb, hpos, hm,
    update_day_weekend_no_carry_recomputes libZero dbC10 5 emptyCarry
      zeroMetrics hw hb hpos hm⟩

/-! ## Claim C2 — weekend carry-forward -/

/-- On a non-trading day with a carried balance, the emitted row is the
carried balance and metrics with `sharpe_ratio` written as 0. -/
theorem update_day_nontrading_carry (lib : QSLib) (db : DB) (d : ℤ)
    (c : Carry) (b : ℚ) (hw : is_trading_day d = false)
    (hb : c.balance = some b) :
    update_portfolio_balance_for_day lib db d c =
      (some ⟨(d : ℚ), b, c.alpha.getD (.num 0), c.beta.getD (.num 0),
         c.maxDrawdown.getD (.num 0), .num 0, c.stdDev.getD (.num 0),
         c.turnover.getD 0⟩,
       { db with stats := db.stats ++
          [⟨(d : ℚ), b, c.alpha.getD (.num 0), c.beta.getD (.num 0),
            c.maxDrawdown.getD (.num 0), .num 0, c.stdDev.getD (.num 0),
            c.turnover.getD 0⟩] },
       ⟨some b, some (c.alpha.getD (.num 0)), some (c.beta.getD (.num 0)),
        some (c.maxDrawdown.getD (.num 0)), some (c.stdDev.getD (.num 0)),
        some (c.turnover.getD 0)⟩) := by
  unfold update_portfolio_balance_for_day
  rw [hw, hb]
  simp

/-- Whenever a day emits a row, the outgoing carry holds exactly that row's
balance and five carried metrics. -/
theorem update_day_emits_carry {lib : QSLib} {db : DB} {d : ℤ} {c : Carry}
    {r : StatRow} {db' : DB} {c' : Carry}
    (h : update_portfolio_balance_for_day lib db d c = (some r, db', c')) :
    c' = ⟨some r.balance, some r.alpha, some r.beta, some r.maxDrawdown,
      some r.stdDev, some r.turnover⟩ := by
  unfold update_portfolio_balance_for_day at h
  split at h
  · simp only [Prod.mk.injEq] at h
    obtain ⟨h1, _, h3⟩ := h
    injection h1 with h1
    rw [← h1, ← h3]
  · split at h
    · simp only [Prod.mk.injEq] at h
      exact absurd h.1 (fun hh => nomatch hh)
    · split at h
      · simp only [Prod.mk.injEq] at h
        exact absurd h.1 (fun hh => nomatch hh)
      · simp only [Prod.mk.injEq] at h
        obtain ⟨h1, _, h3⟩ := h
        injection h1 with h1
        rw [← h1, ← h3]

/-- C2 (amended): during a month replay, on every non-trading day whose
preceding day emitted a stat, the emitted stat repeats the preceding day's
balance, alpha, beta, max drawdown, standard deviation and turnover, but its
`sharpe_ratio` is written as 0 regardless of the preceding day's Sharpe
ratio. -/
theorem replay_weekend_carries_previous_stat (lib : QSLib) :
    ∀ (days : List ℤ) (db : DB) (c : Carry) (i : ℕ) (d d' : ℤ)
      (s s' : StatRow),
      (replayDays lib days db c).get? i = some (d, some s) →
      (replayDays lib days db c).get? (i+1) = some (d', some s') →
      is_trading_day d' = false →
      s'.balance = s.balance ∧ s'.alpha = s.alpha ∧ s'.beta = s.beta ∧
        s'.maxDrawdown = s.maxDrawdown ∧ s'.stdDev = s.stdDev ∧
        s'.turnover = s.turnover ∧ s'.sharpe = PyVal.num 0 := by
  intro days
  induction days with
  | nil =>
    intro db c i d d' s s' h1 _ _
    simp [replayDays] at h1
  | cons x rest ih =>
    intro db c i d d' s s' h1 h2 h3
    simp only [replayDays] at h1 h2
    cases hstep : update_portfolio_balance_for_day lib db x c with
    | mk r rest2 =>
      obtain ⟨db', c'⟩ := rest2
      rw [hstep] at h1 h2
      cases i with
      | zero =>
        simp only [List.get?] at h1
        injection h1 with h1
        have hrs : r = some s := by
          have := congrArg Prod.snd h1
          simpa using this
        cases rest with
        | nil => simp [replayDays] at h2
        | cons y rest' =>
          simp only [replayDays] at h2
          cases hstep2 : update_portfolio_balance_for_day lib db' y c' with
          | mk r2 rest3 =>
            obtain ⟨db'', c''⟩ := rest3
            rw [hstep2] at h2
            simp only [List.get?] at h2
            injection h2 with h2
            have hyd : y = d' := by
              have := congrArg Prod.fst h2
              simpa using this
            have hr2 : r2 = some s' := by
              have := congrArg Prod.snd h2
              simpa using this
            rw [hrs] at hstep
            have hc' := update_day_emits_carry hstep
            have hbal : c'.balance = some s.balance := by rw [hc']
            have := update_day_nontrading_carry lib db' y c' s.balance
              (hyd ▸ h3) hbal
            rw [this] at hstep2
            have hr2' := congrArg (fun p => p.1) hstep2
            simp only at hr2'
            rw [hr2] at hr2'
            injection hr2' with hr2'
            rw [← hr2', hc']
            simp
      | succ j =>
        simp only [List.get?] at h1 h2
        exact ih db' c' j d d' s s' h1 h2 h3

/-- A statistics library returning Sharpe ratio 1 (and 0 for the rest). -/
def libC2 : QSLib :=
  { sharpe := fun _ => .ok (.num 1)
    maxDrawdown := fun _ => .ok (.num 0)
    greeks := fun _ _ => .ok (.num 0, .num 0)
    std := fun _ => .ok (.num 0) }

/-- Friday/Saturday scenario: a 2-share position of symbol 1, prior stats of
balance 100 and 110 on days 2 and 3, price 50 on Friday day 4. -/
def dbC2 : DB :=
  { positions := [⟨1, 2, 0⟩],
    stats := [⟨2, 100, .num 0, .num 0, .num 0, .num 0, .num 0, 0⟩,
              ⟨3, 110, .num 0, .num 0, .num 0, .num 0, .num 0, 0⟩],
    trades := [], prices := [⟨1, 4, 50⟩], spy := none, mm := none }

/-- The carried state entering day 4 of the `dbC2` scenario. -/
def carryC2 : Carry :=
  ⟨some 110, some (.num 0), some (.num 0), some (.num 0), some (.num 0), some 0⟩

/-- The Friday row of the `dbC2` replay (Sharpe ratio 1). -/
def fridayRow : StatRow := ⟨4, 100, .num 0, .num 0, .num 0, .num 1, .num 0, 0⟩

/-- The Saturday row of the `dbC2` replay (Sharpe ratio written as 0). -/
def saturdayRow : StatRow := ⟨5, 100, .num 0, .num 0, .num 0, .num 0, .num 0, 0⟩

/-- The initial carry of the `dbC2` replay comes from the day-3 stat. -/
theorem dbC2_initialCarry : initialCarry dbC2 4 = carryC2 := by
  norm_num [initialCarry, latestStatBefore, dbC2, carryC2,
    List.filter_cons, List.filter_nil, List.foldl_cons, List.foldl_nil]

/-- Evaluation of the two-day `dbC2` replay. -/
theorem dbC2_replay_eval :
    replayDays libC2 [4, 5] dbC2 carryC2 =
      [(4, some fridayRow), (5, some saturdayRow)] := by
  have ht4 : is_trading_day 4 = true := by decide
  have hlps : latestPositionsLe dbC2 4 = [⟨1, 2, 0⟩] := by
    norm_num [latestPositionsLe, latestPerSymbol, latestPosFor, dbC2,
      List.filter_cons, List.filter_nil, List.filterMap_cons,
      List.filterMap_nil, List.foldl_cons, List.foldl_nil,
      List.dedup_cons_of_not_mem, List.dedup_nil]
  have hmet : calculate_portfolio_metrics libC2 dbC2 4 90 =
      .ok ⟨.num 0, .num 0, .num 1, .num 0, .num 0⟩ := by
    norm_num [calculate_portfolio_metrics, fallbackMetrics, statWindow,
      pctChange, dbC2, libC2, List.filter_cons, List.filter_nil,
      List.filterMap_cons, List.filterMap_nil, List.zip_cons_cons,
      List.zip_nil_right, List.tail_cons]
  have hpv : positionsValue dbC2 4 = 100 := by
    rw [positionsValue, hlps]
    norm_num [get_symbol_price, maxByDay, dbC2,
      List.filter_cons, List.filter_nil]
    exact fun h => nomatch h
  have hto : calculate_portfolio_turnover dbC2 4 60 = 0 := by
    norm_num [calculate_portfolio_turnover, tradesWindow, dbC2,
      List.filter_nil]
  have hd4 : update_portfolio_balance_for_day libC2 dbC2 4 carryC2 =
      (some fridayRow, { dbC2 with stats := dbC2.stats ++ [fridayRow] },
       ⟨some 100, some (.num 0), some (.num 0), some (.num 0), some (.num 0),
        some 0⟩) := by
    unfold update_portfolio_balance_for_day
    rw [ht4]
    simp only [Bool.not_true, Bool.false_and, Bool.false_eq_true, if_false]
    rw [if_neg (by rw [hlps]; exact fun h => nomatch h), hmet]
    simp only [hpv, hto, fridayRow]
    norm_num
  have hd5 := update_day_nontrading_carry libC2
    { dbC2 with stats := dbC2.stats ++ [fridayRow] } 5
    ⟨some 100, some (.num 0), some (.num 0), some (.num 0), some (.num 0),
     some 0⟩ 100 (by decide) rfl
  simp only [replayDays]
  rw [hd4]
  simp only [replayDays]
  rw [hd5]
  simp only [saturdayRow]
  norm_num

/-- C2 counterexample: replaying Friday day 4 and Saturday day 5 on `dbC2`,
Friday's stat has Sharpe ratio 1 while the carried-forward Saturday stat —
equal to Friday's in every other field — has Sharpe ratio 0, so the
Saturday stat does not equal the preceding Friday stat. -/
theorem replay_weekend_zeroes_sharpe :
    update_portfolio_balance libC2 dbC2 [4, 5] =
      [(4, some fridayRow), (5, some saturdayRow)] ∧
    saturdayRow.sharpe ≠ fridayRow.sharpe := by
  constructor
  · simp only [update_portfolio_balance]
    rw [dbC2_initialCarry]
    exact dbC2_replay_eval
  · simp only [saturdayRow, fridayRow]
    exact fun h => nomatch h

/-- Witness for the amended C2 on the `dbC2` replay (day 4 emits, day 5 is
a Saturday). -/
theorem replay_weekend_carries_previous_stat_witness :
    (replayDays libC2 [4, 5] dbC2 carryC2).get? 0 = some (4, some fridayRow) ∧
    (replayDays libC2 [4, 5] dbC2 carryC2).get? 1 = some (5, some saturdayRow) ∧
    is_trading_day 5 = false ∧
    (saturdayRow.balance = fridayRow.balance ∧
      saturdayRow.alpha = fridayRow.alpha ∧
      saturdayRow.beta = fridayRow.beta ∧
      saturdayRow.maxDrawdown = fridayRow.maxDrawdown ∧
      saturdayRow.stdDev = fridayRow.stdDev ∧
      saturdayRow.turnover = fridayRow.turnover ∧
      saturdayRow.sharpe = PyVal.num 0) := by
  have h1 : (replayDays libC2 [4, 5] dbC2 carryC2).get? 0 =
      some (4, some fridayRow) := by
    rw [dbC2_replay_eval]
    rfl
  have h2 : (replayDays libC2 [4, 5] dbC2 carryC2).get? 1 =
      some (5, some saturdayRow) := by
    rw [dbC2_replay_eval]
    rfl
  exact ⟨h1, h2, by decide,
    replay_weekend_carries_previous_stat libC2 [4, 5] dbC2 carryC2 0 4 5
      fridayRow saturdayRow h1 h2 (by decide)⟩

/-! ## Claim C9 — idempotence of seeded replay -/

/-- C9: the seed step deletes every position, stat and trade row of the
portfolio before injecting the fixed initial `MONEY_MARKET` position and
initial stat, so a month replay after seeding depends only on the price
table and the symbol registry — two databases that agree on prices and on
the `SPY`/`MONEY_MARKET` symbols (in particular, a fresh database and the
same database again after a first replay run, which only adds portfolio
rows) produce identical Portfolio Stat rows. -/
theorem backtest_seeded_replay_deterministic (lib : QSLib) (db1 db2 : DB)
    (days : List ℤ) (hp : db1.prices = db2.prices)
    (hspy : db1.spy = db2.spy) (hmm : db1.mm = db2.mm) :
    update_portfolio_balance lib (ensure_initial_position db1) days =
      update_portfolio_balance lib (ensure_initial_position db2) days := by
  have hseed : ensure_initial_position db1 = ensure_initial_position db2 := by
    unfold ensure_initial_position
    cases db1
    cases db2
    simp_all
  rw [hseed]

/-- A database already holding portfolio rows (as after a first replay). -/
def db9a : DB :=
  { positions := [⟨7, 5, 1⟩],
    stats := [⟨1, 42, .num 1, .num 1, .num 1, .num 1, .num 1, 1⟩],
    trades := [⟨7, Side.buy, 1, 1, none, 1⟩],
    prices := [⟨1, 0, 10⟩], spy := none, mm := some 99 }

/-- The same database without the portfolio rows. -/
def db9b : DB :=
  { positions := [], stats := [], trades := [],
    prices := [⟨1, 0, 10⟩], spy := none, mm := some 99 }

/-- Witness for C9: seeding erases the leftover rows of `db9a`, so the
replay of days 0 and 1 agrees with the replay on the clean `db9b`. -/
theorem backtest_seeded_replay_deterministic_witness :
    db9a.prices = db9b.prices ∧ db9a.spy = db9b.spy ∧ db9a.mm = db9b.mm ∧
    update_portfolio_balance libZero (ensure_initial_position db9a) [0, 1] =
      update_portfolio_balance libZero (ensure_initial_position db9b) [0, 1] :=
  ⟨rfl, rfl, rfl,
   backtest_seeded_replay_deterministic libZero db9a db9b [0, 1] rfl rfl rfl⟩
